import Mathlib

/-!
Shallow embedding of the source-attribution pipeline of
`backend/app/api/chat.py` together with the access-control service
`backend/app/services/access_control.py`.

Strings are modelled as `List Char` (Python `str` indexing/slicing is by
code point, which coincides with `List Char` positions).  Python floats
are modelled as `PyNum`: exact rationals plus the two infinities and NaN
(the model uses exact rational arithmetic where CPython uses IEEE-754
doubles; none of the verified claims depends on double rounding).
Database tables are lists in insertion order; SQLAlchemy `.first()` on an
unordered query is modelled as the first row in table order.
-/

namespace DigdirChat

set_option maxRecDepth 40000

/-- Character lists standing in for Python strings. -/
abbrev Str := List Char

/-- Lowercasing for the alphabet the heuristics in `chat.py` use:
ASCII letters plus the Norwegian letters Æ, Ø, Å (models `str.lower`). -/
def lowerChar (c : Char) : Char :=
  if c = 'Æ' then 'æ' else if c = 'Ø' then 'ø' else if c = 'Å' then 'å' else c.toLower

/-- Lowercase a whole string (models `str.lower()`). -/
def lowerStr (s : Str) : Str := s.map lowerChar

/-- ASCII whitespace, the characters `str.split`, `str.strip` and the
regex class `\s` treat as blank. -/
def isWs (c : Char) : Bool :=
  c == ' ' || c == '\t' || c == '\n' || c == '\r' || c == '\x0b' || c == '\x0c'

/-- Python `str.split()` with no argument: split on runs of whitespace,
discarding empty words. -/
def pySplitAux : Nat → Str → List Str
  | 0, _ => []
  | fuel + 1, s =>
    let s1 := s.dropWhile isWs
    match s1 with
    | [] => []
    | c :: rest =>
      let w := (c :: rest).takeWhile (fun d => !isWs d)
      let r := (c :: rest).dropWhile (fun d => !isWs d)
      w :: pySplitAux fuel r

/-- Python `str.split()` (the fuel equals the string length; every
iteration of the auxiliary scanner consumes at least one character). -/
def pySplit (s : Str) : List Str := pySplitAux s.length s

/-- Python `str.strip()`. -/
def pyStrip (s : Str) : Str :=
  ((s.dropWhile isWs).reverse.dropWhile isWs).reverse

/-- Python `str.split("\n")`: split at every newline, keeping empty
lines. -/
def splitLinesAux : Nat → Str → List Str
  | 0, s => [s]
  | fuel + 1, s =>
    let l := s.takeWhile (fun c => !(c == '\n'))
    let r := s.dropWhile (fun c => !(c == '\n'))
    match r with
    | [] => [l]
    | _ :: r' => l :: splitLinesAux fuel r'

/-- Python `str.split("\n")`. -/
def splitLines (s : Str) : List Str := splitLinesAux s.length s

/-- Whether `needle` occurs as a contiguous run inside `hay`. -/
def infixHit (needle : Str) : Str → Bool
  | [] => needle.isEmpty
  | c :: rest => needle.isPrefixOf (c :: rest) || infixHit needle rest

/-- Python substring test `needle in hay` (case sensitive). -/
def pyContains (hay needle : Str) : Bool := infixHit needle hay

/-- SQL `ILIKE '%needle%'`: case-insensitive substring match (the model
ignores the possibility of `%`/`_` wildcard characters inside the search
term; the verified claims do not depend on wildcard behaviour). -/
def containsCI (hay needle : Str) : Bool :=
  infixHit (lowerStr needle) (lowerStr hay)

/-- First-occurrence deduplication of a list of strings.  Models
`list(set(xs))` in CPython; the iteration order of a `set` is
unspecified there, and the model fixes it to first-occurrence order.
No verified claim depends on this order. -/
def dedupStr (l : List Str) : List Str :=
  (l.foldl (fun acc w => if acc.contains w then acc else acc ++ [w]) [])

/-- Stable insertion into a sorted list: `x` goes in front of the first
element `y` with `le x y`.  Together with `stableSortBy` this models
Python's stable `list.sort` (and the model's choice of order for SQL
`ORDER BY` ties). -/
def insertSorted (le : α → α → Bool) (x : α) : List α → List α
  | [] => [x]
  | y :: ys => if le x y then x :: y :: ys else y :: insertSorted le x ys

/-- Stable sort with respect to a (non-strict) priority test. -/
def stableSortBy (le : α → α → Bool) (l : List α) : List α :=
  l.foldr (insertSorted le) []

/-! ## Python numbers -/

/-- Value of a CPython `float`: a finite value (modelled exactly as a
rational), one of the two infinities, or NaN. -/
inductive PyNum where
  | fin (q : ℚ)
  | infPos
  | infNeg
  | nan
deriving DecidableEq

/-- IEEE equality, the `==` CPython uses inside `set` membership for
`float` members: NaN is not equal to anything, including itself. -/
def pyEq : PyNum → PyNum → Bool
  | .fin a, .fin b => a == b
  | .infPos, .infPos => true
  | .infNeg, .infNeg => true
  | _, _ => false

/-- IEEE `≤`: any comparison involving NaN is false. -/
def pyLe : PyNum → PyNum → Bool
  | .fin a, .fin b => decide (a ≤ b)
  | .fin _, .infPos => true
  | .infPos, .infPos => true
  | .infNeg, .fin _ => true
  | .infNeg, .infPos => true
  | .infNeg, .infNeg => true
  | _, _ => false

/-- Kernel-reducible rational addition (the Batteries `Rat.add` is
marked irreducible, which blocks `decide`); equal in value to `a + b`. -/
def radd (a b : ℚ) : ℚ :=
  mkRat (a.num * Int.ofNat b.den + b.num * Int.ofNat a.den) (a.den * b.den)

/-- Kernel-reducible rational subtraction; equal in value to `a - b`. -/
def rsub (a b : ℚ) : ℚ :=
  mkRat (a.num * Int.ofNat b.den - b.num * Int.ofNat a.den) (a.den * b.den)

/-- Kernel-reducible absolute value of a rational. -/
def ratAbs (q : ℚ) : ℚ := mkRat (Int.ofNat q.num.natAbs) q.den

/-- Add a rational constant to a Python float. -/
def pyAdd : PyNum → ℚ → PyNum
  | .fin a, r => .fin (radd a r)
  | .infPos, _ => .infPos
  | .infNeg, _ => .infNeg
  | .nan, _ => .nan

/-- Subtract a rational constant from a Python float. -/
def pySub : PyNum → ℚ → PyNum
  | .fin a, r => .fin (rsub a r)
  | .infPos, _ => .infPos
  | .infNeg, _ => .infNeg
  | .nan, _ => .nan

/-- Whether a Python float is finite. -/
def pyIsFinite : PyNum → Bool
  | .fin _ => true
  | _ => false

/-- Python `int(x)` on a finite float: truncation toward zero. -/
def pyTrunc (q : ℚ) : ℤ := if q < 0 then -(Rat.floor (-q)) else Rat.floor q

/-- Decimal render of an integer, as Python `str`/f-string formatting
produces it. -/
def intToStr (i : ℤ) : Str := (toString i).data

/-! ### Parsing numbers the way CPython does

`float(s)` strips whitespace, takes an optional sign, and then accepts
either a decimal literal (`digits [. digits] [exponent]`, with
underscores allowed between digits) or the case-insensitive words
`inf`, `infinity` or `nan`.  `int(s)` strips whitespace, takes an
optional sign and then a plain digit run (underscores between digits).
Unicode digits beyond ASCII are not modelled. -/

/-- A digit run possibly containing underscores is valid when it is
non-empty, starts and ends with a digit, and has no two consecutive
underscores. -/
def validDigitRun (s : Str) : Bool :=
  match s with
  | [] => false
  | c :: _ =>
    c.isDigit && (s.getLast?.elim false Char.isDigit) &&
    !(infixHit ("__".data) s) && s.all (fun d => d.isDigit || d == '_')

/-- Numeric value of a digit run (underscores skipped). -/
def digitRunVal (s : Str) : ℕ :=
  (s.filter Char.isDigit).foldl (fun acc c => 10 * acc + (c.toNat - '0'.toNat)) 0

/-- Number of actual digits in a digit run. -/
def digitRunLen (s : Str) : ℕ := (s.filter Char.isDigit).length

/-- Split off the leading maximal run of digits/underscores. -/
def splitDigitRun (s : Str) : Str × Str :=
  (s.takeWhile (fun c => c.isDigit || c == '_'), s.dropWhile (fun c => c.isDigit || c == '_'))

/-- Parse the exponent suffix of a float literal (empty input means
exponent 0). -/
def parseExponent (s : Str) : Option ℤ :=
  match s with
  | [] => some 0
  | 'e' :: r | 'E' :: r =>
    let (sgn, r1) : ℤ × Str :=
      match r with
      | '+' :: r' => (1, r')
      | '-' :: r' => (-1, r')
      | _ => (1, r)
    let (d, r2) := splitDigitRun r1
    if validDigitRun d && r2.isEmpty then some (sgn * (digitRunVal d : ℤ)) else none
  | _ => none

/-- The exact rational value `mantissa / 10^fracDigits * 10^e`. -/
def applyExp (mantissa fracDigits : ℕ) (e : ℤ) : ℚ :=
  if 0 ≤ e then mkRat (Int.ofNat (mantissa * 10 ^ e.toNat)) (10 ^ fracDigits)
  else mkRat (Int.ofNat mantissa) (10 ^ fracDigits * 10 ^ (-e).toNat)

/-- Parse the mantissa-plus-exponent part of a float literal (after sign
removal), returning its exact rational value.  (CPython converts to an
IEEE double, rounding the value and overflowing huge exponents to
infinity; the model keeps the exact rational, which agrees wherever the
verified claims look.) -/
def parseDecimal (s : Str) : Option ℚ :=
  let (ip, r1) := splitDigitRun s
  match r1 with
  | '.' :: r2 =>
    let (fp, r3) := splitDigitRun r2
    if ip.isEmpty && fp.isEmpty then none
    else if !ip.isEmpty && !validDigitRun ip then none
    else if !fp.isEmpty && !validDigitRun fp then none
    else
      match parseExponent r3 with
      | none => none
      | some e =>
        some (applyExp (digitRunVal ip * 10 ^ digitRunLen fp + digitRunVal fp)
          (digitRunLen fp) e)
  | _ =>
    if !validDigitRun ip then none
    else
      match parseExponent r1 with
      | none => none
      | some e => some (applyExp (digitRunVal ip) 0 e)

/-- Python `float(s)`: returns `none` where CPython raises
`ValueError`. -/
def pyFloat (s : Str) : Option PyNum :=
  let t := pyStrip s
  let (neg, t1) : Bool × Str :=
    match t with
    | '+' :: r => (false, r)
    | '-' :: r => (true, r)
    | _ => (false, t)
  let low := lowerStr t1
  if low == "inf".data || low == "infinity".data then
    some (if neg then .infNeg else .infPos)
  else if low == "nan".data then some .nan
  else
    match parseDecimal t1 with
    | some q => some (.fin (if neg then -q else q))
    | none => none

/-- Python `int(s)`: returns `none` where CPython raises `ValueError`. -/
def pyIntParse (s : Str) : Option ℤ :=
  let t := pyStrip s
  let (neg, t1) : Bool × Str :=
    match t with
    | '+' :: r => (false, r)
    | '-' :: r => (true, r)
    | _ => (false, t)
  if validDigitRun t1 then
    some (if neg then -(digitRunVal t1 : ℤ) else (digitRunVal t1 : ℤ))
  else none

/-! ## The metadata-header regular expressions

`chat.py` extracts headers with
`re.findall(r'\[video_id=(UUID);start=([^;]+);end=([^;]+);segment_id=([^\]]+)\]', text, re.IGNORECASE)`
where `UUID` is `[0-9a-f]{8}-[0-9a-f]{4}-[0-9a-f]{4}-[0-9a-f]{4}-[0-9a-f]{12}`,
and separately computes the per-header context with
`re.split(r'(\[video_id=[^\]]+\])', text)` (case sensitive).  Both
patterns are deterministic: each `[^x]+` bunch is a maximal run of
non-`x` characters that must then be followed by the literal `x...`,
so greedy matching admits no backtracking, and the scan is the usual
leftmost, non-overlapping one. -/

/-- A raw four-group match of the header regex, all groups verbatim. -/
structure RawHeader where
  vid : Str
  startS : Str
  endS : Str
  segS : Str
deriving DecidableEq

/-- Hex digit, either case (the pattern is compiled with
`re.IGNORECASE`). -/
def isHexChar (c : Char) : Bool :=
  c.isDigit || ('a' ≤ c && c ≤ 'f') || ('A' ≤ c && c ≤ 'F')

/-- Consume exactly `n` hex digits, returning them verbatim plus the
rest. -/
def takeHex : Nat → Str → Option (Str × Str)
  | 0, s => some ([], s)
  | _ + 1, [] => none
  | n + 1, c :: r =>
    if isHexChar c then (takeHex n r).map (fun p => (c :: p.1, p.2)) else none

/-- Consume a literal, case-insensitively (hyphens, brackets and other
symbols are unaffected by case folding). -/
def matchLitCI : Str → Str → Option Str
  | [], s => some s
  | _ :: _, [] => none
  | c :: cs, d :: ds => if lowerChar c == lowerChar d then matchLitCI cs ds else none

/-- Consume a literal, case-sensitively. -/
def matchLit : Str → Str → Option Str
  | [], s => some s
  | _ :: _, [] => none
  | c :: cs, d :: ds => if c == d then matchLit cs ds else none

/-- Consume a maximal non-empty run of characters satisfying `p`. -/
def munch1 (p : Char → Bool) (s : Str) : Option (Str × Str) :=
  match s.takeWhile p with
  | [] => none
  | w => some (w, s.drop w.length)

/-- Match the UUID grammar `8-4-4-4-12` hex digits at the front of the
string, returning the matched characters verbatim. -/
def matchUuid (s : Str) : Option (Str × Str) := do
  let (a, r1) ← takeHex 8 s
  let r2 ← matchLit ("-".data) r1
  let (b, r3) ← takeHex 4 r2
  let r4 ← matchLit ("-".data) r3
  let (c, r5) ← takeHex 4 r4
  let r6 ← matchLit ("-".data) r5
  let (d, r7) ← takeHex 4 r6
  let r8 ← matchLit ("-".data) r7
  let (e, r9) ← takeHex 12 r8
  pure (a ++ ("-".data) ++ b ++ ("-".data) ++ c ++ ("-".data) ++ d ++ ("-".data) ++ e, r9)

/-- The anchored re-check `re.match(r'^UUID$', s, re.IGNORECASE)`
performed on a captured `video_id` before it is used. -/
def uuidShape (s : Str) : Bool :=
  match matchUuid s with
  | some (_, rest) => rest.isEmpty
  | none => false

/-- Match the full header pattern at the front of the string, returning
the four capture groups and the rest of the input. -/
def matchHeader (s : Str) : Option (RawHeader × Str) := do
  let r1 ← matchLitCI ("[video_id=".data) s
  let (vid, r2) ← matchUuid r1
  let r3 ← matchLitCI (";start=".data) r2
  let (st, r4) ← munch1 (fun c => !(c == ';')) r3
  let r5 ← matchLitCI (";end=".data) r4
  let (en, r6) ← munch1 (fun c => !(c == ';')) r5
  let r7 ← matchLitCI (";segment_id=".data) r6
  let (sg, r8) ← munch1 (fun c => !(c == ']')) r7
  let r9 ← matchLit ("]".data) r8
  pure (⟨vid, st, en, sg⟩, r9)

/-- Match the split pattern `\[video_id=[^\]]+\]` (case sensitive) at
the front of the string, returning the rest of the input. -/
def matchBracket (s : Str) : Option Str := do
  let r1 ← matchLit ("[video_id=".data) s
  let (_, r2) ← munch1 (fun c => !(c == ']')) r1
  matchLit ("]".data) r2

/-- Leftmost non-overlapping scan for the header pattern, recording
`(position, length, groups)` of every match.  The fuel equals the input
length: every step consumes at least one character. -/
def scanHeadersAux : Nat → Str → Nat → List (Nat × Nat × RawHeader)
  | 0, _, _ => []
  | fuel + 1, s, pos =>
    match s with
    | [] => []
    | c :: rest =>
      match matchHeader (c :: rest) with
      | some (h, rest') =>
        let len := (c :: rest).length - rest'.length
        (pos, len, h) :: scanHeadersAux fuel rest' (pos + len)
      | none => scanHeadersAux fuel rest (pos + 1)

/-- All header matches of `re.findall`, with positions. -/
def scanHeaders (s : Str) : List (Nat × Nat × RawHeader) := scanHeadersAux s.length s 0

/-- The group tuples of `re.findall`, in match order. -/
def findallHeaders (s : Str) : List RawHeader := (scanHeaders s).map (fun t => t.2.2)

/-- Leftmost non-overlapping scan for the split pattern, recording
`(position, length)` of every occurrence. -/
def scanBracketsAux : Nat → Str → Nat → List (Nat × Nat)
  | 0, _, _ => []
  | fuel + 1, s, pos =>
    match s with
    | [] => []
    | c :: rest =>
      match matchBracket (c :: rest) with
      | some rest' =>
        let len := (c :: rest).length - rest'.length
        (pos, len) :: scanBracketsAux fuel rest' (pos + len)
      | none => scanBracketsAux fuel rest (pos + 1)

/-- All occurrences of the split pattern, with positions. -/
def scanBrackets (s : Str) : List (Nat × Nat) := scanBracketsAux s.length s 0

/-- The text strictly between occurrence `i` and occurrence `i + 1` of a
scan (to the end of the string when `i` is the last occurrence); `[]`
when there is no occurrence `i`.  With a capturing group, `re.split`
returns exactly these texts at the odd positions' successors. -/
def gapText (s : Str) (occs : List (Nat × Nat)) (i : Nat) : Str :=
  match occs.get? i with
  | none => []
  | some (p, l) =>
    match occs.get? (i + 1) with
    | none => s.drop (p + l)
    | some (p2, _) => (s.take p2).drop (p + l)

/-- The `header_text_pairs` texts of `_parse_sources_from_lightrag`:
`re.split(r'(\[video_id=[^\]]+\])', response)` pairs every bracket
occurrence with the following text capped at 500 characters
(`parts[i + 1][:500]`). -/
def headerTextPairsTexts (s : Str) : List Str :=
  (List.range (scanBrackets s).length).map (fun i => (gapText s (scanBrackets s) i).take 500)

/-- The `context_text` the source loop uses for match number `idx`: the
text of `header_text_pairs[idx]` when that index exists, else the empty
string. -/
def localContextAt (pairs : List Str) (idx : Nat) : Str := pairs.getD idx []

/-! ## The entity heuristic

`re.findall(r'\b[A-ZÆØÅ][a-zæøå]+(?:\s+[A-ZÆØÅ][a-zæøå]+)*\b', text)`:
a run of capitalized words separated by whitespace.  The leading `\b`
requires a non-word character (or string start) before the first
capital; the trailing `\b` requires a non-word character (or string
end) after the final lowercase run.  When the trailing boundary fails,
the engine backtracks by dropping the final `\s+`-word group (the match
then ends before whitespace, where the boundary always holds); with a
single word there is nothing to drop and the position yields no
match. -/

/-- The capitals the pattern accepts: `A-Z` plus Æ, Ø, Å. -/
def isUpperEnt (c : Char) : Bool := ('A' ≤ c && c ≤ 'Z') || c == 'Æ' || c == 'Ø' || c == 'Å'

/-- The lowercase letters the pattern accepts: `a-z` plus æ, ø, å. -/
def isLowerEnt (c : Char) : Bool := ('a' ≤ c && c ≤ 'z') || c == 'æ' || c == 'ø' || c == 'å'

/-- Word characters for `\b` over the alphabet in play: ASCII
alphanumerics, underscore, and the Norwegian letters. -/
def isWordChar (c : Char) : Bool :=
  c.isAlpha || c.isDigit || c == '_' ||
  c == 'æ' || c == 'ø' || c == 'å' || c == 'Æ' || c == 'Ø' || c == 'Å'

/-- Whether a match may end directly before `rest` (`\b` at the match
end). -/
def boundaryAfter (rest : Str) : Bool :=
  match rest with
  | [] => true
  | c :: _ => !isWordChar c

/-- Match one capitalized word `[A-ZÆØÅ][a-zæøå]+` at the front. -/
def matchCapWord (s : Str) : Option (Str × Str) :=
  match s with
  | [] => none
  | c :: rest =>
    if isUpperEnt c then
      match rest.takeWhile isLowerEnt with
      | [] => none
      | ls => some (c :: ls, rest.drop ls.length)
    else none

/-- Greedy extension by `(?:\s+[A-ZÆØÅ][a-zæøå]+)*` followed by the
trailing `\b`, with the one-group backtrack described above.  `acc` is
the text matched so far (ending in a lowercase run). -/
def entExtend : Nat → Str → Str → Option (Str × Str)
  | 0, acc, r => if boundaryAfter r then some (acc, r) else none
  | fuel + 1, acc, r =>
    let ws := r.takeWhile isWs
    let r2 := r.drop ws.length
    match ws with
    | [] => if boundaryAfter r then some (acc, r) else none
    | _ :: _ =>
      match matchCapWord r2 with
      | none => if boundaryAfter r then some (acc, r) else none
      | some (w, r3) =>
        match entExtend fuel (acc ++ ws ++ w) r3 with
        | some res => some res
        | none => if boundaryAfter r then some (acc, r) else none

/-- Try the whole entity pattern at the current position (`\b` before it
already checked by the caller). -/
def matchEntity (s : Str) : Option (Str × Str) :=
  match matchCapWord s with
  | none => none
  | some (w, r) => entExtend r.length w r

/-- Scan for entities; `prev` is the character before the current
position (none at string start), used for the leading `\b`. -/
def findEntitiesAux : Nat → Option Char → Str → List Str
  | 0, _, _ => []
  | fuel + 1, prev, s =>
    match s with
    | [] => []
    | c :: rest =>
      if (prev.elim true (fun p => !isWordChar p)) then
        match matchEntity (c :: rest) with
        | some (m, r) => m :: findEntitiesAux fuel (m.getLast? <|> some c) r
        | none => findEntitiesAux fuel (some c) rest
      else findEntitiesAux fuel (some c) rest

/-- All entity matches of the capitalized-run regex, in order. -/
def findEntities (s : Str) : List Str := findEntitiesAux s.length none s

/-! ## Data model

The rows the pipeline reads: videos, transcript segments and explicit
access permissions, plus the requesting user.  UUID-valued columns are
stored in canonical (lowercase) form; comparing a column against a
header-derived string is case-insensitive on the hex digits, as the
database's UUID type parses the literal before comparing. -/

/-- The `Role` enum of `app/models/enums.py`. -/
inductive Role where
  | super_admin
  | org_admin
  | user
deriving DecidableEq

/-- The `SecurityLevel` enum of `app/models/enums.py`. -/
inductive SecurityLevel where
  | publicLevel
  | internalLevel
  | confidential
  | secret
deriving DecidableEq

/-- The fields of the `User` model that the pipeline reads. -/
structure User where
  id : Nat
  organization_id : Option Nat
  role : Role
deriving DecidableEq

/-- The fields of the `Video` model that the pipeline reads. -/
structure Video where
  id : Str
  title : Str
  organization_id : Nat
  security_level : SecurityLevel
  uploaded_by : Nat
deriving DecidableEq

/-- The fields of the `VideoSegment` model that the pipeline reads. -/
structure VideoSegment where
  video_id : Str
  segment_id : ℤ
  start_time : ℚ
  end_time : ℚ
  text : Str
deriving DecidableEq

/-- The fields of `VideoAccessPermission` that `can_access_video`
reads (the permission type is not consulted for viewing). -/
structure VideoAccessPermission where
  video_id : Str
  user_id : Nat
deriving DecidableEq

/-- The database state visible to one chat turn; lists are in table
order, and `.first()` takes the head of the filtered list. -/
structure DB where
  videos : List Video
  segments : List VideoSegment
  permissions : List VideoAccessPermission
deriving DecidableEq

/-- Case-insensitive comparison of UUID strings (models comparing a
UUID column with a string literal). -/
def uuidEq (a b : Str) : Bool := lowerStr a == lowerStr b

/-- The `check_security_clearance` function of `access_control.py`. -/
def check_security_clearance (user : User) (security_level : SecurityLevel) : Bool :=
  if security_level == SecurityLevel.publicLevel || security_level == SecurityLevel.internalLevel then
    true
  else if user.role == Role.org_admin || user.role == Role.super_admin then
    true
  else false

/-- The `can_access_video` function of `access_control.py`. -/
def can_access_video (user : User) (video : Video) (db : DB) : Bool :=
  if user.role == Role.super_admin then true
  else if user.role == Role.org_admin && user.organization_id == some video.organization_id then
    true
  else if !(user.organization_id == some video.organization_id) then false
  else if (db.permissions.find? (fun p =>
      uuidEq p.video_id video.id && p.user_id == user.id)).isSome then true
  else check_security_clearance user video.security_level

/-! ## Sources -/

/-- The `MessageSource` schema: an ephemeral citation record. -/
structure MessageSource where
  video_id : Str
  video_title : Str
  timestamp : ℚ
  text : Str
  url : Str
deriving DecidableEq

/-- The excerpt expression used at every source-construction site:
`segment.text[:200] + "..." if len(segment.text) > 200 else
segment.text`. -/
def truncate200 (t : Str) : Str :=
  if t.length > 200 then t.take 200 ++ ("...".data) else t

/-- The playback URL `f"/videos/{video.id}?t={int(segment.start_time)}"`. -/
def playbackUrl (videoId : Str) (startTime : ℚ) : Str :=
  ("/videos/".data) ++ videoId ++ ("?t=".data) ++ intToStr (pyTrunc startTime)

/-- Build a `MessageSource` from a video row and a segment row, exactly
as the three construction sites in `chat.py` do. -/
def mkSource (video : Video) (segment : VideoSegment) : MessageSource :=
  { video_id := video.id
    video_title := video.title
    timestamp := segment.start_time
    text := truncate200 segment.text
    url := playbackUrl video.id segment.start_time }

/-! ## Header retention (`chat.py` lines 575-598)

For each regex match, in order: re-check the UUID shape (`strip()` on
the captured group is the identity, since the group contains only hex
digits and hyphens), parse `start` with `float()`, and drop the header
when its `(video_id, start)` key was already seen.  The key comparison
is the one CPython's `set` uses: exact string equality on `video_id`
and IEEE `==` on the float, under which NaN never equals itself. -/

/-- A retained header: the verbatim groups plus the parsed start. -/
structure ParsedHeader where
  vid : Str
  startS : Str
  start : PyNum
  endS : Str
  segS : Str
deriving DecidableEq

/-- Key equality for the duplicate check `key in seen`. -/
def headerKeyEq (a b : Str × PyNum) : Bool := a.1 == b.1 && pyEq a.2 b.2

/-- The validation/deduplication pass over the regex matches. -/
def retainHeadersAux : List RawHeader → List (Str × PyNum) → List ParsedHeader
  | [], _ => []
  | m :: rest, seen =>
    if !uuidShape m.vid then retainHeadersAux rest seen
    else
      match pyFloat m.startS with
      | none => retainHeadersAux rest seen
      | some st =>
        if seen.any (headerKeyEq (m.vid, st)) then retainHeadersAux rest seen
        else ⟨m.vid, m.startS, st, m.endS, m.segS⟩ :: retainHeadersAux rest ((m.vid, st) :: seen)

/-- The tuples the Metadata Header Parser emits for a context string:
regex matches, validated, with duplicate `(video_id, start)` keys
collapsed to the first occurrence (NaN permitting). -/
def parseHeaders (ctx : Str) : List ParsedHeader := retainHeadersAux (findallHeaders ctx) []

/-! ## Source resolution (`_parse_sources_from_lightrag`) -/

/-- The three-step segment resolution for a header: a segment of the
named video with start time within 0.1s, else the segment whose ordinal
equals the header's `segment_id` parsed as an integer, else any segment
of the video. -/
def findSegmentForHeader (db : DB) (vid segS : Str) (st : PyNum) : Option VideoSegment :=
  match db.segments.find? (fun g =>
      uuidEq g.video_id vid && pyLe (pySub st (mkRat 1 10)) (PyNum.fin g.start_time) &&
        pyLe (PyNum.fin g.start_time) (pyAdd st (mkRat 1 10))) with
  | some g => some g
  | none =>
    match
      (match pyIntParse segS with
       | some n => db.segments.find? (fun g => uuidEq g.video_id vid && g.segment_id == n)
       | none => none) with
    | some g => some g
    | none => db.segments.find? (fun g => uuidEq g.video_id vid)

/-- Look up the video of a header (`Video.id == video_id_str` and
`Video.organization_id == current_user.organization_id`), check access,
and resolve the backing segment. -/
def resolveSegment (db : DB) (user : User) (vid segS : Str) (st : PyNum) :
    Option (Video × VideoSegment) :=
  match db.videos.find? (fun v =>
      uuidEq v.id vid && user.organization_id == some v.organization_id) with
  | none => none
  | some video =>
    if !can_access_video user video db then none
    else (findSegmentForHeader db vid segS st).map (fun g => (video, g))

/-- The content-relevance check: with no query keywords every segment is
considered relevant, otherwise at least one keyword must occur in the
segment text or in the local context text (both lowercased). -/
def relevantContent (queryKeywords : List Str) (segText ctxText : Str) : Bool :=
  if queryKeywords.isEmpty then true
  else
    (queryKeywords.countP (fun k => pyContains (lowerStr segText) k)) > 0 ||
      (queryKeywords.countP (fun k => pyContains (lowerStr ctxText) k)) > 0

/-- The main loop of `_parse_sources_from_lightrag` over the regex
matches, carrying the match index (for the context pairs), the `seen`
key set, and the accumulated sources; stops after the twentieth
appended source. -/
def parseLoop (db : DB) (user : User) (queryKeywords : List Str) (pairs : List Str) :
    List RawHeader → Nat → List (Str × PyNum) → List MessageSource → List MessageSource
  | [], _, _, acc => acc
  | m :: rest, idx, seen, acc =>
    if !uuidShape m.vid then parseLoop db user queryKeywords pairs rest (idx + 1) seen acc
    else
      match pyFloat m.startS with
      | none => parseLoop db user queryKeywords pairs rest (idx + 1) seen acc
      | some st =>
        if seen.any (headerKeyEq (m.vid, st)) then
          parseLoop db user queryKeywords pairs rest (idx + 1) seen acc
        else
          let seen' := (m.vid, st) :: seen
          match resolveSegment db user m.vid m.segS st with
          | none => parseLoop db user queryKeywords pairs rest (idx + 1) seen' acc
          | some (video, segment) =>
            if relevantContent queryKeywords segment.text (localContextAt pairs idx) then
              let acc' := acc ++ [mkSource video segment]
              if acc'.length ≥ 20 then acc'
              else parseLoop db user queryKeywords pairs rest (idx + 1) seen' acc'
            else parseLoop db user queryKeywords pairs rest (idx + 1) seen' acc

/-- `_parse_sources_from_lightrag`: parse headers from the retrieval
context, resolve each against the database under access control and the
content-relevance check, and return the verified sources. -/
def parseSourcesFromLightrag (response query : Str) (user : User) (db : DB) :
    List MessageSource :=
  let queryKeywords := (pySplit query).filter (fun w => w.length > 2) |>.map lowerStr
  parseLoop db user queryKeywords (headerTextPairsTexts response) (findallHeaders response) 0 [] []

/-! ## Answer-grounded search (`_search_sources_from_answer`) -/

/-- The Norwegian stop-word set of `_search_sources_from_answer`. -/
def stopwordsSearch : List Str :=
  ["som", "det", "er", "og", "har", "kan", "for", "med", "den", "til",
   "der", "sitt", "sin", "sine", "han", "hun", "de", "en", "et",
   "på", "av", "ved", "om", "i", "jobb", "arbeid"].map String.data

/-- Keyword extraction shared by answer and query:
`[word.lower() for word in text.split() if len(word) > 3 and word.lower() not in stopwords]`. -/
def extractKeywords (stop : List Str) (text : Str) : List Str :=
  ((pySplit text).filter (fun w => w.length > 3 && !stop.contains (lowerStr w))).map lowerStr

/-- A candidate row of the search query: the segment joined with a
video of the requester's organization, matching at least one of the
first five entities or first five keywords (`ILIKE` substring). -/
def answerSearchCandidate (db : DB) (user : User) (entFilters kwFilters : List Str)
    (seg : VideoSegment) : Bool :=
  (match db.videos.find? (fun v => v.id == seg.video_id) with
   | some v => user.organization_id == some v.organization_id
   | none => false) &&
  (entFilters.any (fun e => containsCI seg.text e) || kwFilters.any (fun k => containsCI seg.text k))

/-- The relevance score of a candidate segment: +3 per entity whose
lowercase form occurs in the segment text, +1 per keyword occurring. -/
def answerScore (allEntities allKeywords : List Str) (seg : VideoSegment) : Nat :=
  3 * (allEntities.countP (fun e => pyContains (lowerStr seg.text) (lowerStr e))) +
    allKeywords.countP (fun k => pyContains (lowerStr seg.text) k)

/-- The emission loop over the scored candidates: dedupe by
`(video_id, int(start_time))`, re-fetch the segment's video, apply the
access filter, and stop once `limit * 3` sources are collected. -/
def answerEmitLoop (db : DB) (user : User) (cap : Nat) :
    List VideoSegment → List (Str × ℤ) → List MessageSource → List MessageSource
  | [], _, acc => acc
  | seg :: rest, seenKeys, acc =>
    let key := (seg.video_id, pyTrunc seg.start_time)
    if seenKeys.any (fun k => k.1 == key.1 && k.2 == key.2) then
      answerEmitLoop db user cap rest seenKeys acc
    else
      let seenKeys' := key :: seenKeys
      match db.videos.find? (fun v => v.id == seg.video_id) with
      | none => answerEmitLoop db user cap rest seenKeys' acc
      | some video =>
        if !can_access_video user video db then answerEmitLoop db user cap rest seenKeys' acc
        else
          let acc' := acc ++ [mkSource video seg]
          if acc'.length ≥ cap then acc'
          else answerEmitLoop db user cap rest seenKeys' acc'

/-- `_search_sources_from_answer`: extract entities and keywords from
the answer and the query, search the organization's segments for them,
score, sort (stable, descending), dedupe, access-check and emit up to
`limit * 3` sources. -/
def searchSourcesFromAnswer (answer query : Str) (user : User) (db : DB)
    (limit : Nat := 5) : List MessageSource :=
  let answerEntities := findEntities answer
  let answerKeywords := extractKeywords stopwordsSearch answer
  let queryEntities := findEntities query
  let queryKeywords := extractKeywords stopwordsSearch query
  let allEntities := dedupStr (answerEntities ++ queryEntities)
  let allKeywords := (dedupStr (answerKeywords ++ queryKeywords)).take 10
  if allEntities.isEmpty && allKeywords.isEmpty then []
  else
    let entFilters := allEntities.take 5
    let kwFilters := allKeywords.take 5
    let candidates :=
      (stableSortBy (fun a b => decide (a.start_time ≤ b.start_time))
        (db.segments.filter (answerSearchCandidate db user entFilters kwFilters))).take (limit * 5)
    let scored := candidates.filterMap (fun seg =>
      let score := answerScore allEntities allKeywords seg
      if score > 0 then some (score, seg) else none)
    let sorted := stableSortBy (fun a b => decide (b.1 ≤ a.1)) scored
    answerEmitLoop db user (limit * 3) (sorted.map (fun p => p.2)) [] []

/-! ## Fallback search (`_search_videos_by_query`) -/

/-- The emission loop of the fallback search: dedupe by video only,
access-check, stop at `limit`. -/
def fallbackEmitLoop (db : DB) (user : User) (cap : Nat) :
    List VideoSegment → List Str → List MessageSource → List MessageSource
  | [], _, acc => acc
  | seg :: rest, seenVideos, acc =>
    if seenVideos.contains seg.video_id then fallbackEmitLoop db user cap rest seenVideos acc
    else
      let seenVideos' := seg.video_id :: seenVideos
      match db.videos.find? (fun v => v.id == seg.video_id) with
      | none => fallbackEmitLoop db user cap rest seenVideos' acc
      | some video =>
        if !can_access_video user video db then fallbackEmitLoop db user cap rest seenVideos' acc
        else
          let acc' := acc ++ [mkSource video seg]
          if acc'.length ≥ cap then acc'
          else fallbackEmitLoop db user cap rest seenVideos' acc'

/-- `_search_videos_by_query`: plain keyword search over the
organization's segments using the query tokens longer than two
characters (first three), deduplicated by video, capped at `limit`. -/
def searchVideosByQuery (query : Str) (user : User) (db : DB) (limit : Nat := 5) :
    List MessageSource :=
  let keywords := (pySplit (lowerStr query)).filter (fun w => w.length > 2)
  if keywords.isEmpty then []
  else
    let kw3 := keywords.take 3
    let candidates := (db.segments.filter (fun seg =>
      (match db.videos.find? (fun v => v.id == seg.video_id) with
       | some v => user.organization_id == some v.organization_id
       | none => false) &&
      kw3.any (fun k => containsCI seg.text k))).take (limit * 3)
    fallbackEmitLoop db user limit candidates [] []

/-! ## Relevance filter (`_filter_relevant_sources`) -/

/-- The greeting phrase list. -/
def greetingsList : List Str :=
  ["hi", "hello", "hej", "hei", "hey", "hallo", "hallo der", "hei der", "heisann"].map String.data

/-- The generic-capability phrase list. -/
def genericResponsesList : List Str :=
  ["kan hjelpe", "hjelpe deg", "hjelpe deg med", "assist", "help you",
   "hva kan jeg hjelpe", "hva kan jeg hjelpe deg", "hva kan jeg hjelpe deg med",
   "hvordan kan jeg", "hvordan kan jeg hjelpe", "how can i help"].map String.data

/-- The bare-greeting list the query is compared against. -/
def genericQueryList : List Str :=
  ["hi", "hello", "hej", "hei", "hey", "hallo", "hola"].map String.data

/-- The (larger) stop-word set of `_filter_relevant_sources`. -/
def stopwordsFilter : List Str :=
  ["som", "det", "er", "og", "har", "kan", "for", "med", "den", "til",
   "der", "sitt", "sin", "sine", "han", "hun", "de", "en", "et",
   "på", "av", "ved", "om", "i", "jobb", "arbeid", "hva", "hvem",
   "hvor", "hvorfor", "hvordan", "når", "du", "deg", "din", "ditt",
   "meg", "seg", "oss", "dere", "jeg", "vi"].map String.data

/-- The per-source relevance score of `_filter_relevant_sources`. -/
def filterScore (allEntities allKeywords : List Str) (query : Str) (source : MessageSource) :
    Nat :=
  let t := lowerStr source.text
  let entityMatches := allEntities.countP (fun e => pyContains t (lowerStr e))
  let keywordMatches := allKeywords.countP (fun k => pyContains t k)
  (if entityMatches > 0 then entityMatches * 3 else 0) +
    (if keywordMatches ≥ 2 then keywordMatches else 0) +
    (if (pySplit query).length > 3 then
      (if ((pySplit query).countP (fun w => w.length > 3 && pyContains t (lowerStr w))) ≥ 2
       then 2 else 0)
     else 0)

/-- `_filter_relevant_sources`: suppress everything on greeting/generic
turns, then keep only sources scoring at least 2 against the merged
entity/keyword sets of answer and query. -/
def filterRelevantSources (sources : List MessageSource) (answer query : Str) :
    List MessageSource :=
  if sources.isEmpty then []
  else
    let answerLower := pyStrip (lowerStr answer)
    let queryLower := pyStrip (lowerStr query)
    let isGreeting := greetingsList.any (fun g => pyContains answerLower g)
    let isGeneric := genericResponsesList.any (fun g => pyContains answerLower g)
    let isShortQuery := (pySplit query).length ≤ 2
    let isGenericQuery := genericQueryList.contains queryLower
    if (isGreeting || isGeneric) && (isShortQuery || isGenericQuery) then []
    else if (pySplit answer).length ≤ 5 && isGeneric then []
    else
      let allEntities := dedupStr (findEntities answer ++ findEntities query)
      let answerWords := extractKeywords stopwordsFilter answer
      let queryWords := extractKeywords stopwordsFilter query
      let allKeywords := dedupStr (answerWords ++ queryWords)
      if allEntities.isEmpty && allKeywords.length < 1 then []
      else sources.filter (fun s => filterScore allEntities allKeywords query s ≥ 2)

/-! ## Merge policy (`send_message` lines 170-191) -/

/-- The dedupe key `(source.video_id, int(source.timestamp))`. -/
def dedupeKey (s : MessageSource) : Str × ℤ := (s.video_id, pyTrunc s.timestamp)

/-- Sequential deduplication keeping the first occurrence of every key. -/
def dedupeSourcesAux : List MessageSource → List (Str × ℤ) → List MessageSource
  | [], _ => []
  | s :: rest, seen =>
    if seen.any (fun k => k.1 == (dedupeKey s).1 && k.2 == (dedupeKey s).2) then
      dedupeSourcesAux rest seen
    else s :: dedupeSourcesAux rest (dedupeKey s :: seen)

/-- First-occurrence deduplication of a source list. -/
def dedupeSources (l : List MessageSource) : List MessageSource := dedupeSourcesAux l []

/-- The merge of answer-based and context sources: two sequential loops
over one shared `seen_keys` set and one accumulator, which is the same
as one deduplication pass over the concatenation (answer-based sources
first, so they win all ties); no count cap is applied. -/
def mergeSources (answerBased contextSources : List MessageSource) : List MessageSource :=
  dedupeSourcesAux (answerBased ++ contextSources) []

/-! ## Source validation branch (`send_message` lines 202-238) -/

/-- The short stop-word list of the validation branch (line 209). -/
def stopwordsValidate : List Str :=
  ["som", "det", "er", "og", "har", "kan", "for", "med", "den", "til",
   "der", "sitt", "sin", "sine"].map String.data

/-- When answer-based search found nothing but header-based sources
exist: count how many sources look relevant to the answer, and when
fewer than half do (and the answer yields any entities or keywords),
re-run the answer-based search and substitute its result if non-empty. -/
def validateRelevance (sources : List MessageSource) (answer query : Str) (user : User)
    (db : DB) : List MessageSource :=
  let answerEntities := findEntities answer
  let answerKeywords := extractKeywords stopwordsValidate answer
  let relevantCount := sources.countP (fun s =>
    let t := lowerStr s.text
    answerEntities.any (fun e => pyContains t (lowerStr e)) ||
      (answerKeywords.countP (fun k => pyContains t k)) ≥ 2)
  if 2 * relevantCount < sources.length &&
      (!answerEntities.isEmpty || !answerKeywords.isEmpty) then
    let answerBased := searchSourcesFromAnswer answer query user db 5
    if answerBased.length > 0 then answerBased else sources
  else sources

/-! ## Context enricher (`_add_context_to_sources`) -/

/-- The closest segment of a video by absolute distance of its start
time from a timestamp (`order_by(abs(start_time - ts)).first()`; ties
resolved by table order in the model). -/
def closestSegment (segs : List VideoSegment) (ts : ℚ) : Option VideoSegment :=
  (stableSortBy (fun a b =>
    decide (ratAbs (rsub a.start_time ts) ≤ ratAbs (rsub b.start_time ts))) segs).head?

/-- Locate the backing segment of a source: a segment of its video with
start time within 0.5s of the timestamp, else the closest segment of
that video. -/
def enrichLookup (db : DB) (source : MessageSource) : Option VideoSegment :=
  match db.segments.find? (fun g =>
      g.video_id == source.video_id &&
      decide (rsub source.timestamp (mkRat 1 2) ≤ g.start_time) &&
      decide (g.start_time ≤ radd source.timestamp (mkRat 1 2))) with
  | some g => some g
  | none =>
    closestSegment (db.segments.filter (fun g => g.video_id == source.video_id))
      source.timestamp

/-- Build the `... [MAIN SEGMENT: ...] ...` context blob around a
located segment: up to `contextSegments` segments of the same video on
each side, joined with single spaces. -/
def enrichText (db : DB) (contextSegments : Nat) (source : MessageSource)
    (segment : VideoSegment) : Str :=
  let bySegs := db.segments.filter (fun g => g.video_id == source.video_id)
  let prevDesc := (stableSortBy (fun a b => decide (b.start_time ≤ a.start_time))
    (bySegs.filter (fun g => decide (g.start_time < segment.start_time)))).take contextSegments
  let nexts := (stableSortBy (fun a b => decide (a.start_time ≤ b.start_time))
    (bySegs.filter (fun g => decide (segment.start_time < g.start_time)))).take contextSegments
  let parts :=
    (if prevDesc.isEmpty then [] else [("...".data)]) ++
      (prevDesc.reverse.map (fun g => g.text)) ++
      [("[MAIN SEGMENT: ".data) ++ segment.text ++ ("]".data)] ++
      (nexts.map (fun g => g.text)) ++
      (if nexts.isEmpty then [] else [("...".data)])
  List.intercalate (" ".data) parts

/-- Enrich one source: locate its backing segment, and replace only the
text with the context blob; on lookup failure the source passes through
unchanged. -/
def enrichSource (db : DB) (contextSegments : Nat) (source : MessageSource) : MessageSource :=
  match enrichLookup db source with
  | none => source
  | some segment => { source with text := enrichText db contextSegments source segment }

/-- `_add_context_to_sources`: enrich every source independently, in
order. -/
def addContextToSources (sources : List MessageSource) (_user : User) (db : DB)
    (contextSegments : Nat := 2) : List MessageSource :=
  sources.map (enrichSource db contextSegments)

/-! ## Transcription-error corrector (`_post_process_answer_with_context`)

The single LLM call is modelled by its outcome `llm : Except Str Str`
(the prompt built from query, sources and answer is pure and does not
affect the failure branch).  The whole body runs inside
`try ... except`, and the handler returns the original answer. -/

/-- `_post_process_answer_with_context`. -/
def postProcessAnswerWithContext (answer : Str) (_sources : List MessageSource) (_query : Str)
    (llm : Except Str Str) : Str :=
  match llm with
  | .error _ => answer
  | .ok correctedRaw =>
    let corrected := pyStrip correctedRaw
    if ("```".data).isPrefixOf corrected then
      List.intercalate ("\n".data)
        ((splitLines corrected).filter (fun l => !(("```".data).isPrefixOf (pyStrip l))))
    else corrected

/-! ## Conversation orchestrator (`send_message`) -/

/-- The source-assembly portion of `send_message` (lines 132-252): the
header-based parse, the answer-based search, the merge / fallback /
validation choice, the relevance filter, and the context enrichment. -/
def computeSources (db : DB) (user : User) (query combinedContext answer : Str) :
    List MessageSource :=
  let sources := parseSourcesFromLightrag combinedContext query user db
  let answerBased := searchSourcesFromAnswer answer query user db 5
  let merged :=
    if answerBased.length > 0 then mergeSources answerBased sources
    else if sources.length == 0 then searchVideosByQuery query user db 5
    else validateRelevance sources answer query user db
  let filtered := filterRelevantSources merged answer query
  if filtered.isEmpty then filtered else addContextToSources filtered user db 2

/-- A persisted chat message (role, content, and for assistant messages
the denormalized source list). -/
structure Message where
  role : Str
  content : Str
  sources : Option (List MessageSource)
deriving DecidableEq

/-- The outcomes of the four external calls one chat turn makes: the
two context retrievals, the answer generation, and the correction LLM
call. -/
structure ChatCalls where
  ctxVec : Except Str Str
  ctxMix : Except Str Str
  answerCall : Except Str Str
  correction : Except Str Str

/-- The response of a successful chat turn. -/
structure ChatResult where
  answer : Str
  sources : List MessageSource
deriving DecidableEq

/-- `send_message`, as state passing over the persisted message list:
the user's message is stored first (its own committed transaction);
the `try` block then runs retrieval, source assembly and correction,
and on success appends exactly one assistant message; any failure
inside the block surfaces as a single error with nothing further
persisted.  (The correction call's failure is caught inside
`_post_process_answer_with_context` and never reaches this level.) -/
def sendMessage (calls : ChatCalls) (db : DB) (user : User) (messageText : Str)
    (persisted : List Message) : List Message × Except Str ChatResult :=
  if user.organization_id == none then
    (persisted, Except.error ("User must belong to an organization".data))
  else
    let persisted1 := persisted ++ [⟨("user".data), messageText, none⟩]
    match calls.ctxVec with
    | .error e => (persisted1, .error e)
    | .ok ctxVec =>
      match calls.ctxMix with
      | .error e => (persisted1, .error e)
      | .ok ctxMix =>
        match calls.answerCall with
        | .error e => (persisted1, .error e)
        | .ok answer =>
          let combined := ctxVec ++ ("\n\n".data) ++ ctxMix
          let sources := computeSources db user messageText combined answer
          let finalAnswer :=
            if sources.isEmpty then answer
            else postProcessAnswerWithContext answer sources messageText calls.correction
          (persisted1 ++ [⟨("assistant".data), finalAnswer, some sources⟩],
           .ok ⟨finalAnswer, sources⟩)

/-! ## Spec-side definition for the local-context claim -/

/-- Modelled from the spec: the "locally retrieved context" of §4.1 —
for a retained header (here: the regex match with index `i`), the
verbatim text span that followed that header up to the next header or
500 characters, whichever is shorter.  This is the spec's wording; the
code instead indexes into the spans that follow the `re.split`
bracket occurrences. -/
def specLocalContext (ctx : Str) (i : Nat) : Str :=
  (gapText ctx ((scanHeaders ctx).map (fun t => (t.1, t.2.1))) i).take 500

/-! ## Concrete fixtures used by witnesses and counterexamples -/

/-- A canonical video UUID. -/
def uuidW : Str := ("aaaaaaaa-bbbb-cccc-dddd-eeeeeeeeffff".data)

/-- A second video UUID. -/
def uuidL : Str := ("bbbbbbbb-bbbb-cccc-dddd-eeeeeeeeffff".data)

/-- A regular user of organization 1. -/
def userW : User := ⟨10, some 1, Role.user⟩

/-- An internal video of organization 1. -/
def videoW : Video := ⟨uuidW, ("Video One".data), 1, SecurityLevel.internalLevel, 99⟩

/-- A second internal video of organization 1. -/
def videoL : Video := ⟨uuidL, ("Video Two".data), 1, SecurityLevel.internalLevel, 99⟩

/-- A short transcript segment of `videoW`. -/
def segW : VideoSegment := ⟨uuidW, 0, 5, 6, ("John Smith, senior engineer at Acme Corp".data)⟩

/-- A 250-character transcript segment of `videoL`. -/
def segLong : VideoSegment := ⟨uuidL, 0, 100, 101, List.replicate 250 'z'⟩

/-- The database the witnesses run against. -/
def dbW : DB := ⟨[videoW, videoL], [segW, segLong], []⟩

/-- A header whose `start` field is the word `inf` (which `float`
accepts). -/
def hdrInf : Str :=
  ("[video_id=".data) ++ uuidW ++ (";start=inf;end=7;segment_id=0]".data)

/-- A context string consisting of `hdrInf` followed by chunk text. -/
def ctxInf : Str := hdrInf ++ (" chunk text".data)

/-- A header whose `start` field is the word `nan`. -/
def hdrNan : Str :=
  ("[video_id=".data) ++ uuidW ++ (";start=nan;end=6.5;segment_id=0]".data)

/-- A well-formed header with a finite start time. -/
def hdrGood : Str :=
  ("[video_id=".data) ++ uuidW ++ (";start=5.0;end=6.5;segment_id=0]".data)

/-- A context with a malformed bracket before a valid header: the
bracket occurrence count and the header match count disagree. -/
def ctxJunk : Str :=
  ("[video_id=x]AAA ".data) ++ hdrGood ++ ("BBB".data)

/-- A context that is exactly one valid header followed by text. -/
def ctxAligned : Str := hdrGood ++ ("BBB".data)

/-- The scenario query of §8. -/
def queryW : Str := ("Who is John Smith and where does he work?".data)

/-- The scenario answer of §8. -/
def answerW : Str := ("John Smith works at Acme Corp".data)

/-- A default source for positional lookups. -/
def defaultSource : MessageSource := ⟨[], [], 0, [], []⟩

/-- A source whose video has no segments in `dbW`. -/
def orphanSource : MessageSource :=
  ⟨("cccccccc-bbbb-cccc-dddd-eeeeeeeeffff".data), ("Video Three".data), 3, ("x".data),
    ("u".data)⟩

/-! ## Helper lemmas -/

theorem mem_insertSorted {le : α → α → Bool} {x a : α} {l : List α}
    (h : a ∈ insertSorted le x l) : a = x ∨ a ∈ l := by
  induction l with
  | nil =>
    simp only [insertSorted, List.mem_singleton] at h
    exact Or.inl h
  | cons y ys ih =>
    simp only [insertSorted] at h
    split at h
    · simpa using h
    · rcases List.mem_cons.mp h with h' | h'
      · exact Or.inr (by simp [h'])
      · rcases ih h' with h'' | h''
        · exact Or.inl h''
        · exact Or.inr (List.mem_cons_of_mem _ h'')

theorem mem_stableSortBy {le : α → α → Bool} {a : α} {l : List α}
    (h : a ∈ stableSortBy le l) : a ∈ l := by
  induction l with
  | nil =>
    simp only [stableSortBy, List.foldr_nil] at h
    exact absurd h (List.not_mem_nil a)
  | cons y ys ih =>
    simp only [stableSortBy, List.foldr_cons] at h
    rcases mem_insertSorted h with h' | h'
    · simp [h']
    · exact List.mem_cons_of_mem _ (ih h')

theorem mem_dedupeSourcesAux {s : MessageSource} :
    ∀ {l : List MessageSource} {seen : List (Str × ℤ)},
      s ∈ dedupeSourcesAux l seen → s ∈ l := by
  intro l
  induction l with
  | nil =>
    intro seen h
    exact absurd h (List.not_mem_nil s)
  | cons x rest ih =>
    intro seen h
    simp only [dedupeSourcesAux] at h
    split at h
    · exact List.mem_cons_of_mem _ (ih h)
    · rcases List.mem_cons.mp h with h' | h'
      · simp [h']
      · exact List.mem_cons_of_mem _ (ih h')

theorem sublist_dedupeSourcesAux :
    ∀ (l : List MessageSource) (seen : List (Str × ℤ)),
      List.Sublist (dedupeSourcesAux l seen) l := by
  intro l
  induction l with
  | nil => intro seen; simp [dedupeSourcesAux]
  | cons x rest ih =>
    intro seen
    simp only [dedupeSourcesAux]
    split
    · exact List.Sublist.cons x (ih _)
    · exact List.Sublist.cons₂ x (ih _)

theorem keyTest_eq_iff (k a : Str × ℤ) :
    ((k.1 == a.1 && k.2 == a.2) = true) ↔ k = a := by
  constructor
  · intro h
    have h' := (Bool.and_eq_true _ _).mp h
    exact Prod.ext (eq_of_beq h'.1) (eq_of_beq h'.2)
  · intro h
    subst h
    simp

theorem dedupeSourcesAux_congr :
    ∀ {l : List MessageSource} {s₁ s₂ : List (Str × ℤ)},
      (∀ y ∈ l,
        s₁.any (fun k => k.1 == (dedupeKey y).1 && k.2 == (dedupeKey y).2) =
          s₂.any (fun k => k.1 == (dedupeKey y).1 && k.2 == (dedupeKey y).2)) →
      dedupeSourcesAux l s₁ = dedupeSourcesAux l s₂ := by
  intro l
  induction l with
  | nil => intro s₁ s₂ _; rfl
  | cons x rest ih =>
    intro s₁ s₂ hagree
    have hx := hagree x (List.mem_cons_self _ _)
    have hrest : ∀ y ∈ rest, _ = _ := fun y hy => hagree y (List.mem_cons_of_mem _ hy)
    simp only [dedupeSourcesAux, hx]
    split
    · exact ih hrest
    · refine congrArg (List.cons x) (ih ?_)
      intro y hy
      simp only [List.any_cons, hrest y hy]

theorem dedupeSourcesAux_skip {k : Str × ℤ} {l : List MessageSource} {seen : List (Str × ℤ)}
    (hk : ∀ y ∈ l, dedupeKey y ≠ k) :
    dedupeSourcesAux l (k :: seen) = dedupeSourcesAux l seen := by
  refine dedupeSourcesAux_congr ?_
  intro y hy
  have : ((k.1 == (dedupeKey y).1 && k.2 == (dedupeKey y).2) : Bool) = false := by
    rcases Bool.eq_false_or_eq_true (k.1 == (dedupeKey y).1 && k.2 == (dedupeKey y).2) with h | h
    · exact absurd ((keyTest_eq_iff _ _).mp h).symm (hk y hy)
    · exact h
  simp only [List.any_cons, this, Bool.false_or]

theorem dedupeSourcesAux_append {a h : List MessageSource}
    (hd : ∀ y ∈ h, ∀ x ∈ a, dedupeKey y ≠ dedupeKey x) :
    ∀ seen, dedupeSourcesAux (a ++ h) seen =
      dedupeSourcesAux a seen ++ dedupeSourcesAux h seen := by
  induction a with
  | nil => intro seen; simp [dedupeSourcesAux]
  | cons x rest ih =>
    intro seen
    have hd' : ∀ y ∈ h, ∀ z ∈ rest, dedupeKey y ≠ dedupeKey z := fun y hy z hz =>
      hd y hy z (List.mem_cons_of_mem _ hz)
    have hdx : ∀ y ∈ h, dedupeKey y ≠ dedupeKey x := fun y hy =>
      hd y hy x (List.mem_cons_self _ _)
    rw [List.cons_append]
    simp only [dedupeSourcesAux]
    split
    · exact ih hd' seen
    · rw [List.cons_append]
      exact congrArg (List.cons x)
        ((ih hd' (dedupeKey x :: seen)).trans
          (by rw [dedupeSourcesAux_skip hdx]))

/-! ## Claim theorems (easy group) -/

/-- C4: if the transcription-error-correction LLM call raises, the
post-processing step returns the input answer unchanged, byte for byte
(and, being a total function, it cannot fail the chat turn). -/
theorem correction_failure_passthrough :
    ∀ (answer : Str) (sources : List MessageSource) (query : Str) (e : Str),
      postProcessAnswerWithContext answer sources query (Except.error e) = answer := by
  intro answer sources query e
  rfl

/-- C8: for query "hei" and answer "Hei! Hvordan kan jeg hjelpe deg?",
the relevance filter returns the empty list for every candidate source
list. -/
theorem greeting_suppression :
    ∀ sources : List MessageSource,
      filterRelevantSources sources ("Hei! Hvordan kan jeg hjelpe deg?".data) ("hei".data)
        = [] := by
  intro sources
  cases sources with
  | nil => rfl
  | cons s rest => rfl

/-- C2: with non-empty answer-based and header-based source lists whose
dedupe keys do not overlap, the merged sequence is exactly the
deduplication of the answer-based sources followed by the deduplication
of the header-based sources — every surviving answer-based source, in
order, before every surviving header-based source, in order — and it
equals the full uncapped deduplication of the concatenation. -/
theorem merge_priority (a h : List MessageSource)
    (_ha : a ≠ []) (_hh : h ≠ [])
    (hdisj : ∀ x ∈ a, ∀ y ∈ h, dedupeKey x ≠ dedupeKey y) :
    mergeSources a h = dedupeSources a ++ dedupeSources h ∧
    mergeSources a h = dedupeSources (a ++ h) ∧
    List.Sublist (dedupeSources a) a ∧ List.Sublist (dedupeSources h) h := by
  have hd : ∀ y ∈ h, ∀ x ∈ a, dedupeKey y ≠ dedupeKey x := fun y hy x hx =>
    fun e => (hdisj x hx y hy) e.symm
  refine ⟨?_, rfl, sublist_dedupeSourcesAux a [], sublist_dedupeSourcesAux h []⟩
  simpa [mergeSources, dedupeSources] using dedupeSourcesAux_append hd []

/-- C2 witness: the merge theorem applied to two concrete disjoint
singleton lists. -/
theorem merge_priority_witness :
    mergeSources [⟨("v1".data), ("t".data), 1, ("a".data), ("u".data)⟩]
        [⟨("v2".data), ("t".data), 2, ("b".data), ("u".data)⟩] =
      dedupeSources [⟨("v1".data), ("t".data), 1, ("a".data), ("u".data)⟩] ++
        dedupeSources [⟨("v2".data), ("t".data), 2, ("b".data), ("u".data)⟩] :=
  (merge_priority _ _ (by decide) (by decide) (by decide)).1

/-- C3: the user's message is persisted first and independently of the
pipeline; on any failure inside the turn nothing beyond it is
persisted and a single error is reported; on success exactly one
assistant message carrying the final answer and its source list is
appended. -/
theorem turn_atomicity (calls : ChatCalls) (db : DB) (user : User) (msg : Str)
    (msgs : List Message) (h : user.organization_id.isSome) :
    ((sendMessage calls db user msg msgs).1.take (msgs.length + 1) =
        msgs ++ [⟨("user".data), msg, none⟩]) ∧
    (∀ e, (sendMessage calls db user msg msgs).2 = Except.error e →
        (sendMessage calls db user msg msgs).1 = msgs ++ [⟨("user".data), msg, none⟩]) ∧
    (∀ r, (sendMessage calls db user msg msgs).2 = Except.ok r →
        (sendMessage calls db user msg msgs).1 =
          msgs ++ [⟨("user".data), msg, none⟩,
            ⟨("assistant".data), r.answer, some r.sources⟩]) := by
  obtain ⟨o, ho⟩ := Option.isSome_iff_exists.mp h
  have hguard : (user.organization_id == none) = false := by
    rw [ho]
    rfl
  have hlen : (msgs ++ [(⟨("user".data), msg, none⟩ : Message)]).length = msgs.length + 1 := by
    simp
  rcases calls with ⟨cv, cm, ac, corr⟩
  cases cv with
  | error e0 =>
    refine ⟨?_, ?_, ?_⟩
    · simp only [sendMessage, hguard, Bool.false_eq_true, if_false]
      rw [← hlen, List.take_length]
    · intro e _
      simp [sendMessage, hguard]
    · intro r hr
      simp [sendMessage, hguard] at hr
  | ok v0 =>
    cases cm with
    | error e0 =>
      refine ⟨?_, ?_, ?_⟩
      · simp only [sendMessage, hguard, Bool.false_eq_true, if_false]
        rw [← hlen, List.take_length]
      · intro e _
        simp [sendMessage, hguard]
      · intro r hr
        simp [sendMessage, hguard] at hr
    | ok v1 =>
      cases ac with
      | error e0 =>
        refine ⟨?_, ?_, ?_⟩
        · simp only [sendMessage, hguard, Bool.false_eq_true, if_false]
          rw [← hlen, List.take_length]
        · intro e _
          simp [sendMessage, hguard]
        · intro r hr
          simp [sendMessage, hguard] at hr
      | ok v2 =>
        refine ⟨?_, ?_, ?_⟩
        · simp only [sendMessage, hguard, Bool.false_eq_true, if_false]
          rw [← hlen]
          exact List.take_left _ _
        · intro e he
          simp [sendMessage, hguard] at he
        · intro r hr
          simp only [sendMessage, hguard, Bool.false_eq_true, if_false,
            Except.ok.injEq] at hr ⊢
          subst hr
          simp

/-- C3 witness: the atomicity theorem applied to a failing and to a
succeeding concrete turn. -/
theorem turn_atomicity_witness :
    ((sendMessage ⟨Except.error ("down".data), Except.ok ("".data), Except.ok ("".data),
        Except.ok ("".data)⟩ dbW userW queryW []).1 =
      [⟨("user".data), queryW, none⟩]) ∧
    ((sendMessage ⟨Except.ok ("".data), Except.ok ("".data), Except.ok answerW,
        Except.error ("boom".data)⟩ dbW userW queryW []).1 =
      [⟨("user".data), queryW, none⟩,
       ⟨("assistant".data),
        (sendMessage ⟨Except.ok ("".data), Except.ok ("".data), Except.ok answerW,
          Except.error ("boom".data)⟩ dbW userW queryW []).2.toOption.elim [] (fun r => r.answer),
        some ((sendMessage ⟨Except.ok ("".data), Except.ok ("".data), Except.ok answerW,
          Except.error ("boom".data)⟩ dbW userW queryW []).2.toOption.elim []
            (fun r => r.sources))⟩]) := by
  constructor
  · exact (turn_atomicity _ dbW userW queryW [] (by decide)).2.1 _ rfl
  · exact (turn_atomicity _ dbW userW queryW [] (by decide)).2.2 _ rfl

theorem retainHeadersAux_shape :
    ∀ {ms : List RawHeader} {seen : List (Str × PyNum)} {h : ParsedHeader},
      h ∈ retainHeadersAux ms seen →
      uuidShape h.vid = true ∧ pyFloat h.startS = some h.start := by
  intro ms
  induction ms with
  | nil =>
    intro seen h hm
    exact absurd hm (List.not_mem_nil h)
  | cons m rest ih =>
    intro seen h hm
    simp only [retainHeadersAux] at hm
    split at hm
    · exact ih hm
    · rename_i huuid
      split at hm
      · exact ih hm
      · rename_i st hst
        split at hm
        · exact ih hm
        · rcases List.mem_cons.mp hm with h' | h'
          · subst h'
            refine ⟨?_, hst⟩
            simpa using huuid
          · exact ih h'

theorem retainHeadersAux_not_seen :
    ∀ {ms : List RawHeader} {seen : List (Str × PyNum)} {h : ParsedHeader},
      h ∈ retainHeadersAux ms seen →
      ∀ k ∈ seen, headerKeyEq (h.vid, h.start) k = false := by
  intro ms
  induction ms with
  | nil =>
    intro seen h hm
    exact absurd hm (List.not_mem_nil h)
  | cons m rest ih =>
    intro seen h hm
    simp only [retainHeadersAux] at hm
    split at hm
    · exact ih hm
    · split at hm
      · exact ih hm
      · rename_i st _
        split at hm
        · exact ih hm
        · rename_i hnotseen
          rcases List.mem_cons.mp hm with h' | h'
          · subst h'
            intro k hk
            rcases Bool.eq_false_or_eq_true (headerKeyEq (m.vid, st) k) with ht | hf
            · exact absurd (List.any_eq_true.mpr ⟨k, hk, ht⟩) hnotseen
            · exact hf
          · intro k hk
            exact ih h' k (List.mem_cons_of_mem _ hk)

theorem retainHeadersAux_pairwise :
    ∀ {ms : List RawHeader} {seen : List (Str × PyNum)},
      List.Pairwise (fun a b : ParsedHeader =>
        headerKeyEq (b.vid, b.start) (a.vid, a.start) = false) (retainHeadersAux ms seen) := by
  intro ms
  induction ms with
  | nil =>
    intro seen
    exact List.Pairwise.nil
  | cons m rest ih =>
    intro seen
    simp only [retainHeadersAux]
    split
    · exact ih
    · split
      · exact ih
      · rename_i st _
        split
        · exact ih
        · refine List.Pairwise.cons ?_ ih
          intro b hb
          exact retainHeadersAux_not_seen hb (m.vid, st) (List.mem_cons_self _ _)

/-- C5 counterexample: the context `ctxInf` carries a single header
whose `start` field is `inf`; `float` parses it (it is not finite), the
header is retained, and — against the claim — a source is produced for
it from the database. -/
theorem header_grammar_counterexample :
    (parseHeaders ctxInf).map (fun h => pyIsFinite h.start) = [false] ∧
    parseSourcesFromLightrag ctxInf ("smith".data) userW dbW = [mkSource videoW segW] := by
  constructor
  · decide
  · decide

/-- C5 amended: a tuple is emitted only for headers whose `video_id`
matches the 32-hex-digit 8-4-4-4-12 grammar (case-insensitive) and
whose `start` field parses as a Python float — which accepts the
infinities and NaN besides finite numbers; a non-matching `video_id` or
an unparseable `start` yields no tuple and raises no error. -/
theorem header_grammar_amended :
    ∀ (ctx : Str) (h : ParsedHeader), h ∈ parseHeaders ctx →
      uuidShape h.vid = true ∧ pyFloat h.startS = some h.start := by
  intro ctx h hm
  exact retainHeadersAux_shape hm

/-- C5 witness: the amended grammar theorem applied to the retained
`inf`-start header of `ctxInf`. -/
theorem header_grammar_amended_witness :
    ((⟨uuidW, ("inf".data), PyNum.infPos, ("7".data), ("0".data)⟩ : ParsedHeader)
        ∈ parseHeaders ctxInf) ∧
    (uuidShape (⟨uuidW, ("inf".data), PyNum.infPos, ("7".data), ("0".data)⟩ :
        ParsedHeader).vid = true ∧
      pyFloat (⟨uuidW, ("inf".data), PyNum.infPos, ("7".data), ("0".data)⟩ :
        ParsedHeader).startS =
        some (⟨uuidW, ("inf".data), PyNum.infPos, ("7".data), ("0".data)⟩ :
          ParsedHeader).start) :=
  ⟨by decide, header_grammar_amended ctxInf _ (by decide)⟩

/-- C6 counterexample: the same header repeated twice — with `start`
field `nan` — yields two tuples, not one: `float('nan')` never compares
equal to itself, so the duplicate key is never recognised. -/
theorem dedup_idempotence_counterexample :
    (parseHeaders (hdrNan ++ hdrNan)).length = 2 := by
  decide

/-- C6 amended: a later header is skipped exactly when its
`(video_id, parsed start)` key equals an earlier retained key under
Python float equality; consequently the retained tuples have pairwise
non-equal keys, and a non-NaN header repeated any number of times
yields exactly one tuple (shown here for a threefold repetition), while
NaN-start headers are never collapsed. -/
theorem dedup_idempotence_amended :
    (∀ ctx : Str, List.Pairwise (fun a b : ParsedHeader =>
        headerKeyEq (b.vid, b.start) (a.vid, a.start) = false) (parseHeaders ctx)) ∧
    parseHeaders (hdrGood ++ hdrGood ++ hdrGood) =
      [⟨uuidW, ("5.0".data), PyNum.fin 5, ("6.5".data), ("0".data)⟩] := by
  constructor
  · intro ctx
    exact retainHeadersAux_pairwise
  · decide

theorem localContextAt_eq (ctx : Str) (i : Nat) :
    localContextAt (headerTextPairsTexts ctx) i =
      (gapText ctx (scanBrackets ctx) i).take 500 := by
  unfold localContextAt headerTextPairsTexts
  by_cases hi : i < (scanBrackets ctx).length
  · rw [List.getD_eq_getElem?_getD, List.getElem?_map, List.getElem?_range hi]
    rfl
  · rw [List.getD_eq_getElem?_getD]
    have h1 : ((List.range (scanBrackets ctx).length).map
        (fun i => (gapText ctx (scanBrackets ctx) i).take 500))[i]? = none := by
      rw [List.getElem?_eq_none]
      simpa using Nat.le_of_not_lt hi
    have h2 : (scanBrackets ctx).get? i = none := by
      rw [List.get?_eq_getElem?, List.getElem?_eq_none]
      exact Nat.le_of_not_lt hi
    rw [h1]
    unfold gapText
    rw [h2]
    rfl

/-- C7 counterexample: in `ctxJunk` a malformed bracket precedes the
single valid header, so the context text used for that header is the
span that followed the malformed bracket, not the span that followed
the header itself. -/
theorem local_context_counterexample :
    (parseHeaders ctxJunk).length = 1 ∧
    localContextAt (headerTextPairsTexts ctxJunk) 0 = ("AAA ".data) ∧
    specLocalContext ctxJunk 0 = ("BBB".data) ∧
    localContextAt (headerTextPairsTexts ctxJunk) 0 ≠ specLocalContext ctxJunk 0 := by
  refine ⟨by decide, by decide, by decide, by decide⟩

/-- C7 amended: the local context used for the i-th header match is the
500-character-capped span following the i-th occurrence of the
`[video_id=...]` bracket shape; this coincides with the verbatim span
following the i-th valid header itself exactly when the bracket
occurrences and the header matches coincide. -/
theorem local_context_amended (ctx : Str)
    (halign : scanBrackets ctx = (scanHeaders ctx).map (fun t => (t.1, t.2.1))) :
    ∀ i, localContextAt (headerTextPairsTexts ctx) i = specLocalContext ctx i := by
  intro i
  rw [localContextAt_eq, specLocalContext, halign]

/-- C7 witness: the amended theorem applied to an aligned context. -/
theorem local_context_amended_witness :
    (scanBrackets ctxAligned = (scanHeaders ctxAligned).map (fun t => (t.1, t.2.1))) ∧
    localContextAt (headerTextPairsTexts ctxAligned) 0 = specLocalContext ctxAligned 0 :=
  ⟨by decide, local_context_amended ctxAligned (by decide) 0⟩

/-! ## Membership lemmas for the source producers -/

theorem findSegmentForHeader_mem {db : DB} {vid segS : Str} {st : PyNum} {g : VideoSegment}
    (h : findSegmentForHeader db vid segS st = some g) : g ∈ db.segments := by
  unfold findSegmentForHeader at h
  split at h
  · rename_i hf
    cases h
    exact List.mem_of_find?_eq_some hf
  · split at h
    · rename_i hf
      cases h
      split at hf
      · exact List.mem_of_find?_eq_some hf
      · exact absurd hf (by simp)
    · exact List.mem_of_find?_eq_some h

theorem resolveSegment_mem {db : DB} {user : User} {vid segS : Str} {st : PyNum}
    {video : Video} {segment : VideoSegment}
    (h : resolveSegment db user vid segS st = some (video, segment)) :
    video ∈ db.videos ∧ segment ∈ db.segments ∧ can_access_video user video db = true := by
  unfold resolveSegment at h
  split at h
  · exact absurd h (by simp)
  · rename_i v hfv
    split at h
    · exact absurd h (by simp)
    · rename_i hacc
      rcases Option.map_eq_some'.mp h with ⟨g, hg, hpair⟩
      have h1 : v = video := congrArg Prod.fst hpair
      have h2 : g = segment := congrArg Prod.snd hpair
      subst h1
      subst h2
      refine ⟨List.mem_of_find?_eq_some hfv, findSegmentForHeader_mem hg, ?_⟩
      cases hc : can_access_video user v db with
      | false => exact absurd (by simp [hc]) hacc
      | true => rfl

theorem parseLoop_mem {db : DB} {user : User} {qkw pairs : List Str} :
    ∀ {ms : List RawHeader} {idx : Nat} {seen : List (Str × PyNum)}
      {acc : List MessageSource} {s : MessageSource},
      s ∈ parseLoop db user qkw pairs ms idx seen acc →
      s ∈ acc ∨ ∃ video segment, video ∈ db.videos ∧ segment ∈ db.segments ∧
        can_access_video user video db = true ∧ s = mkSource video segment := by
  intro ms
  induction ms with
  | nil =>
    intro idx seen acc s h
    exact Or.inl h
  | cons m rest ih =>
    intro idx seen acc s h
    simp only [parseLoop] at h
    split at h
    · exact ih h
    · split at h
      · exact ih h
      · rename_i st _
        split at h
        · exact ih h
        · split at h
          · exact ih h
          · rename_i video segment hres
            split at h
            · split at h
              · rcases List.mem_append.mp h with h' | h'
                · exact Or.inl h'
                · rcases resolveSegment_mem hres with ⟨hv, hg, hc⟩
                  exact Or.inr ⟨video, segment, hv, hg, hc, List.mem_singleton.mp h'⟩
              · rcases ih h with h' | h'
                · rcases List.mem_append.mp h' with h'' | h''
                  · exact Or.inl h''
                  · rcases resolveSegment_mem hres with ⟨hv, hg, hc⟩
                    exact Or.inr ⟨video, segment, hv, hg, hc, List.mem_singleton.mp h''⟩
                · exact Or.inr h'
            · exact ih h

theorem parseSources_mem {response query : Str} {user : User} {db : DB} {s : MessageSource}
    (h : s ∈ parseSourcesFromLightrag response query user db) :
    ∃ video segment, video ∈ db.videos ∧ segment ∈ db.segments ∧
      can_access_video user video db = true ∧ s = mkSource video segment := by
  unfold parseSourcesFromLightrag at h
  rcases parseLoop_mem h with h' | h'
  · exact absurd h' (List.not_mem_nil s)
  · exact h'

theorem answerEmitLoop_mem {db : DB} {user : User} {cap : Nat} :
    ∀ {segs : List VideoSegment} {seen : List (Str × ℤ)} {acc : List MessageSource}
      {s : MessageSource},
      s ∈ answerEmitLoop db user cap segs seen acc →
      s ∈ acc ∨ ∃ video segment, video ∈ db.videos ∧ segment ∈ segs ∧
        can_access_video user video db = true ∧ s = mkSource video segment := by
  intro segs
  induction segs with
  | nil =>
    intro seen acc s h
    exact Or.inl h
  | cons seg rest ih =>
    intro seen acc s h
    have weaken : ∀ {t : MessageSource},
        (t ∈ acc ∨ ∃ video segment, video ∈ db.videos ∧ segment ∈ rest ∧
          can_access_video user video db = true ∧ t = mkSource video segment) →
        (t ∈ acc ∨ ∃ video segment, video ∈ db.videos ∧ segment ∈ seg :: rest ∧
          can_access_video user video db = true ∧ t = mkSource video segment) := by
      intro t ht
      rcases ht with ht | ⟨v, g, hv, hg, hc, he⟩
      · exact Or.inl ht
      · exact Or.inr ⟨v, g, hv, List.mem_cons_of_mem _ hg, hc, he⟩
    simp only [answerEmitLoop] at h
    split at h
    · exact weaken (ih h)
    · split at h
      · exact weaken (ih h)
      · rename_i video hfv
        split at h
        · exact weaken (ih h)
        · rename_i hacc
          have hvmem : video ∈ db.videos := List.mem_of_find?_eq_some hfv
          have hcacc : can_access_video user video db = true := by
            cases hc : can_access_video user video db with
            | false => exact absurd (by simp [hc]) hacc
            | true => rfl
          split at h
          · rcases List.mem_append.mp h with h' | h'
            · exact Or.inl h'
            · exact Or.inr ⟨video, seg, hvmem, List.mem_cons_self _ _, hcacc,
                List.mem_singleton.mp h'⟩
          · rcases ih h with h' | h'
            · rcases List.mem_append.mp h' with h'' | h''
              · exact Or.inl h''
              · exact Or.inr ⟨video, seg, hvmem, List.mem_cons_self _ _, hcacc,
                  List.mem_singleton.mp h''⟩
            · exact weaken (Or.inr h')

theorem fallbackEmitLoop_mem {db : DB} {user : User} {cap : Nat} :
    ∀ {segs : List VideoSegment} {seen : List Str} {acc : List MessageSource}
      {s : MessageSource},
      s ∈ fallbackEmitLoop db user cap segs seen acc →
      s ∈ acc ∨ ∃ video segment, video ∈ db.videos ∧ segment ∈ segs ∧
        can_access_video user video db = true ∧ s = mkSource video segment := by
  intro segs
  induction segs with
  | nil =>
    intro seen acc s h
    exact Or.inl h
  | cons seg rest ih =>
    intro seen acc s h
    have weaken : ∀ {t : MessageSource},
        (t ∈ acc ∨ ∃ video segment, video ∈ db.videos ∧ segment ∈ rest ∧
          can_access_video user video db = true ∧ t = mkSource video segment) →
        (t ∈ acc ∨ ∃ video segment, video ∈ db.videos ∧ segment ∈ seg :: rest ∧
          can_access_video user video db = true ∧ t = mkSource video segment) := by
      intro t ht
      rcases ht with ht | ⟨v, g, hv, hg, hc, he⟩
      · exact Or.inl ht
      · exact Or.inr ⟨v, g, hv, List.mem_cons_of_mem _ hg, hc, he⟩
    simp only [fallbackEmitLoop] at h
    split at h
    · exact weaken (ih h)
    · split at h
      · exact weaken (ih h)
      · rename_i video hfv
        split at h
        · exact weaken (ih h)
        · rename_i hacc
          have hvmem : video ∈ db.videos := List.mem_of_find?_eq_some hfv
          have hcacc : can_access_video user video db = true := by
            cases hc : can_access_video user video db with
            | false => exact absurd (by simp [hc]) hacc
            | true => rfl
          split at h
          · rcases List.mem_append.mp h with h' | h'
            · exact Or.inl h'
            · exact Or.inr ⟨video, seg, hvmem, List.mem_cons_self _ _, hcacc,
                List.mem_singleton.mp h'⟩
          · rcases ih h with h' | h'
            · rcases List.mem_append.mp h' with h'' | h''
              · exact Or.inl h''
              · exact Or.inr ⟨video, seg, hvmem, List.mem_cons_self _ _, hcacc,
                  List.mem_singleton.mp h''⟩
            · exact weaken (Or.inr h')

theorem searchAnswer_mem {answer query : Str} {user : User} {db : DB} {limit : Nat}
    {s : MessageSource} (h : s ∈ searchSourcesFromAnswer answer query user db limit) :
    ∃ video segment, video ∈ db.videos ∧ segment ∈ db.segments ∧
      can_access_video user video db = true ∧ s = mkSource video segment := by
  unfold searchSourcesFromAnswer at h
  dsimp only at h
  split at h
  · exact absurd h (List.not_mem_nil s)
  · rcases answerEmitLoop_mem h with h' | h'
    · exact absurd h' (List.not_mem_nil s)
    · rcases h' with ⟨video, segment, hv, hg, hc, he⟩
      refine ⟨video, segment, hv, ?_, hc, he⟩
      rcases List.mem_map.mp hg with ⟨p, hp, hpe⟩
      have hp' := mem_stableSortBy hp
      rcases List.mem_filterMap.mp hp' with ⟨seg', hseg', hif⟩
      have hmem : seg' ∈ db.segments :=
        List.mem_of_mem_filter (mem_stableSortBy ((List.take_sublist _ _).subset hseg'))
      split at hif
      · cases hif
        rw [← hpe]
        exact hmem
      · exact absurd hif (by simp)

theorem fallbackSearch_mem {query : Str} {user : User} {db : DB} {limit : Nat}
    {s : MessageSource} (h : s ∈ searchVideosByQuery query user db limit) :
    ∃ video segment, video ∈ db.videos ∧ segment ∈ db.segments ∧
      can_access_video user video db = true ∧ s = mkSource video segment := by
  unfold searchVideosByQuery at h
  dsimp only at h
  split at h
  · exact absurd h (List.not_mem_nil s)
  · rcases fallbackEmitLoop_mem h with h' | h'
    · exact absurd h' (List.not_mem_nil s)
    · rcases h' with ⟨video, segment, hv, hg, hc, he⟩
      exact ⟨video, segment, hv,
        List.mem_of_mem_filter ((List.take_sublist _ _).subset hg), hc, he⟩

theorem filterRelevant_subset {sources : List MessageSource} {answer query : Str}
    {s : MessageSource} (h : s ∈ filterRelevantSources sources answer query) :
    s ∈ sources := by
  unfold filterRelevantSources at h
  dsimp only at h
  split at h
  · exact absurd h (List.not_mem_nil s)
  · split at h
    · exact absurd h (List.not_mem_nil s)
    · split at h
      · exact absurd h (List.not_mem_nil s)
      · split at h
        · exact absurd h (List.not_mem_nil s)
        · exact List.mem_of_mem_filter h

theorem validateRelevance_cases {sources : List MessageSource} {answer query : Str}
    {user : User} {db : DB} {s : MessageSource}
    (h : s ∈ validateRelevance sources answer query user db) :
    s ∈ sources ∨ s ∈ searchSourcesFromAnswer answer query user db 5 := by
  unfold validateRelevance at h
  dsimp only at h
  split at h
  · split at h
    · exact Or.inr h
    · exact Or.inl h
  · exact Or.inl h

theorem mergeSources_subset {a b : List MessageSource} {s : MessageSource}
    (h : s ∈ mergeSources a b) : s ∈ a ∨ s ∈ b := by
  unfold mergeSources at h
  exact List.mem_append.mp (mem_dedupeSourcesAux h)

theorem enrichSource_fields (db : DB) (n : Nat) (s : MessageSource) :
    (enrichSource db n s).video_id = s.video_id ∧
    (enrichSource db n s).video_title = s.video_title ∧
    (enrichSource db n s).timestamp = s.timestamp ∧
    (enrichSource db n s).url = s.url := by
  unfold enrichSource
  split
  · exact ⟨rfl, rfl, rfl, rfl⟩
  · exact ⟨rfl, rfl, rfl, rfl⟩

theorem addContext_video_id {sources : List MessageSource} {user : User} {db : DB} {n : Nat}
    {s : MessageSource} (h : s ∈ addContextToSources sources user db n) :
    ∃ s', s' ∈ sources ∧ s.video_id = s'.video_id := by
  unfold addContextToSources at h
  rcases List.mem_map.mp h with ⟨s', hs', he⟩
  exact ⟨s', hs', by rw [← he]; exact (enrichSource_fields db n s').1⟩

theorem filtered_access_step {db : DB} {user : User} {ans q : Str}
    {X : List MessageSource} {s : MessageSource}
    (hX : ∀ t ∈ X, ∃ video segment, video ∈ db.videos ∧ segment ∈ db.segments ∧
      can_access_video user video db = true ∧ t = mkSource video segment)
    (h : s ∈ (if (filterRelevantSources X ans q).isEmpty then filterRelevantSources X ans q
      else addContextToSources (filterRelevantSources X ans q) user db 2)) :
    ∃ v, v ∈ db.videos ∧ s.video_id = v.id ∧ can_access_video user v db = true := by
  split at h
  · rcases hX s (filterRelevant_subset h) with ⟨v, g, hv, _, hc, he⟩
    refine ⟨v, hv, ?_, hc⟩
    rw [he]
    rfl
  · rcases addContext_video_id h with ⟨s', hs', hvid⟩
    rcases hX s' (filterRelevant_subset hs') with ⟨v, g, hv, _, hc, he⟩
    refine ⟨v, hv, ?_, hc⟩
    rw [hvid, he]
    rfl

theorem computeSources_access {db : DB} {user : User} {q ctx ans : Str} {s : MessageSource}
    (h : s ∈ computeSources db user q ctx ans) :
    ∃ v, v ∈ db.videos ∧ s.video_id = v.id ∧ can_access_video user v db = true := by
  unfold computeSources at h
  dsimp only at h
  split at h
  · refine filtered_access_step ?_ h
    intro t ht
    rcases mergeSources_subset ht with h' | h'
    · exact searchAnswer_mem h'
    · exact parseSources_mem h'
  · split at h
    · refine filtered_access_step ?_ h
      intro t ht
      exact fallbackSearch_mem ht
    · refine filtered_access_step ?_ h
      intro t ht
      rcases validateRelevance_cases ht with h' | h'
      · exact parseSources_mem h'
      · exact searchAnswer_mem h'

/-- C1: every source in the final filtered list computed for a chat
turn — over the header-based, answer-based and fallback paths, the
merge, the relevance filter and the context enrichment — references a
video of the database that the requesting user can access, and the
sources attached to the assistant message a successful `send_message`
persists satisfy the same invariant. -/
theorem access_exclusion :
    (∀ (db : DB) (user : User) (q ctx ans : Str) (s : MessageSource),
      s ∈ computeSources db user q ctx ans →
      ∃ v, v ∈ db.videos ∧ s.video_id = v.id ∧ can_access_video user v db = true) ∧
    (∀ (calls : ChatCalls) (db : DB) (user : User) (msg : Str) (msgs : List Message)
      (r : ChatResult), (sendMessage calls db user msg msgs).2 = Except.ok r →
      ∀ s ∈ r.sources,
        ∃ v, v ∈ db.videos ∧ s.video_id = v.id ∧ can_access_video user v db = true) := by
  refine ⟨fun _ _ _ _ _ _ h => computeSources_access h, ?_⟩
  intro calls db user msg msgs r hr s hs
  cases hg : (user.organization_id == none) with
  | true =>
    rw [sendMessage, if_pos hg] at hr
    exact absurd hr (by simp)
  | false =>
    rcases calls with ⟨cv, cm, ac, corr⟩
    cases cv with
    | error e0 => simp [sendMessage, hg] at hr
    | ok v0 =>
      cases cm with
      | error e0 => simp [sendMessage, hg] at hr
      | ok v1 =>
        cases ac with
        | error e0 => simp [sendMessage, hg] at hr
        | ok v2 =>
          simp only [sendMessage, hg, Bool.false_eq_true, if_false, Except.ok.injEq] at hr
          subst hr
          exact computeSources_access hs

/-- C1 witness: the invariant applied to the §8 scenario, where the
pipeline produces exactly one (enriched) source. -/
theorem access_exclusion_witness :
    ((computeSources dbW userW queryW ("".data) answerW).getD 0 defaultSource
        ∈ computeSources dbW userW queryW ("".data) answerW) ∧
    (∃ v, v ∈ dbW.videos ∧
      ((computeSources dbW userW queryW ("".data) answerW).getD 0 defaultSource).video_id =
        v.id ∧
      can_access_video userW v dbW = true) :=
  ⟨by decide, access_exclusion.1 dbW userW queryW ("".data) answerW _ (by decide)⟩

/-- C9: the text excerpt of every source constructed by the three
construction sites (header-based resolution, answer-based search,
fallback query search) is the backing segment's text truncated at 200
characters: longer texts become exactly the first 200 characters plus
an ellipsis, shorter texts are unmodified. -/
theorem truncation_roundtrip :
    (∀ t : Str, (t.length > 200 → truncate200 t = t.take 200 ++ ("...".data)) ∧
      (t.length ≤ 200 → truncate200 t = t)) ∧
    (∀ (resp q : Str) (user : User) (db : DB) (s : MessageSource),
      s ∈ parseSourcesFromLightrag resp q user db →
      ∃ segment, segment ∈ db.segments ∧ s.text = truncate200 segment.text) ∧
    (∀ (ans q : Str) (user : User) (db : DB) (limit : Nat) (s : MessageSource),
      s ∈ searchSourcesFromAnswer ans q user db limit →
      ∃ segment, segment ∈ db.segments ∧ s.text = truncate200 segment.text) ∧
    (∀ (q : Str) (user : User) (db : DB) (limit : Nat) (s : MessageSource),
      s ∈ searchVideosByQuery q user db limit →
      ∃ segment, segment ∈ db.segments ∧ s.text = truncate200 segment.text) := by
  refine ⟨?_, ?_, ?_, ?_⟩
  · intro t
    constructor
    · intro hlen
      unfold truncate200
      rw [if_pos hlen]
    · intro hlen
      unfold truncate200
      rw [if_neg (by omega)]
  · intro resp q user db s h
    rcases parseSources_mem h with ⟨v, g, _, hg, _, he⟩
    exact ⟨g, hg, by rw [he]; rfl⟩
  · intro ans q user db limit s h
    rcases searchAnswer_mem h with ⟨v, g, _, hg, _, he⟩
    exact ⟨g, hg, by rw [he]; rfl⟩
  · intro q user db limit s h
    rcases fallbackSearch_mem h with ⟨v, g, _, hg, _, he⟩
    exact ⟨g, hg, by rw [he]; rfl⟩

/-- C9 witness: the truncation theorem applied to the fallback search
over a 250-character segment. -/
theorem truncation_roundtrip_witness :
    ((searchVideosByQuery ("zzzz".data) userW dbW 5).getD 0 defaultSource
        ∈ searchVideosByQuery ("zzzz".data) userW dbW 5) ∧
    (∃ segment, segment ∈ dbW.segments ∧
      ((searchVideosByQuery ("zzzz".data) userW dbW 5).getD 0 defaultSource).text =
        truncate200 segment.text) :=
  ⟨by decide, truncation_roundtrip.2.2.2 ("zzzz".data) userW dbW 5 _ (by decide)⟩

theorem getD_map_of_lt (f : α → β) (l : List α) {i : Nat} (h : i < l.length) (d : β) (d' : α) :
    (l.map f).getD i d = f (l.getD i d') := by
  rw [List.getD_eq_getElem?_getD, List.getD_eq_getElem?_getD, List.getElem?_map,
    List.getElem?_eq_getElem h]
  rfl

theorem enrichSource_pass {db : DB} {n : Nat} {s : MessageSource}
    (hempty : db.segments.filter (fun g => g.video_id == s.video_id) = []) :
    enrichSource db n s = s := by
  have hfind : db.segments.find? (fun g =>
      g.video_id == s.video_id &&
      decide (rsub s.timestamp (mkRat 1 2) ≤ g.start_time) &&
      decide (g.start_time ≤ radd s.timestamp (mkRat 1 2))) = none := by
    rw [List.find?_eq_none]
    intro g hg hpred
    have h1 : (g.video_id == s.video_id) = true :=
      ((Bool.and_eq_true _ _).mp ((Bool.and_eq_true _ _).mp hpred).1).1
    exact (List.filter_eq_nil_iff.mp hempty) g hg h1
  unfold enrichSource enrichLookup
  rw [hfind, hempty]
  rfl

/-- C10: the context enricher returns exactly one source per input
source, in order; each output keeps the input's video id, title,
timestamp and URL (only the text may change); and a source whose video
has no segments passes through completely unchanged. -/
theorem context_enricher_frame (sources : List MessageSource) (user : User) (db : DB)
    (n : Nat) :
    (addContextToSources sources user db n).length = sources.length ∧
    (∀ i, i < sources.length →
      ((addContextToSources sources user db n).getD i defaultSource).video_id =
          (sources.getD i defaultSource).video_id ∧
        ((addContextToSources sources user db n).getD i defaultSource).video_title =
          (sources.getD i defaultSource).video_title ∧
        ((addContextToSources sources user db n).getD i defaultSource).timestamp =
          (sources.getD i defaultSource).timestamp ∧
        ((addContextToSources sources user db n).getD i defaultSource).url =
          (sources.getD i defaultSource).url) ∧
    (∀ i, i < sources.length →
      db.segments.filter
          (fun g => g.video_id == (sources.getD i defaultSource).video_id) = [] →
      (addContextToSources sources user db n).getD i defaultSource =
        sources.getD i defaultSource) := by
  refine ⟨List.length_map _ _, ?_, ?_⟩
  · intro i hi
    unfold addContextToSources
    rw [getD_map_of_lt (enrichSource db n) sources hi defaultSource defaultSource]
    exact enrichSource_fields db n _
  · intro i hi hempty
    unfold addContextToSources
    rw [getD_map_of_lt (enrichSource db n) sources hi defaultSource defaultSource]
    exact enrichSource_pass hempty

/-- C10 witness: the frame theorem applied to a source whose video has
no segments in the database. -/
theorem context_enricher_frame_witness :
    (0 < ([orphanSource] : List MessageSource).length) ∧
    (dbW.segments.filter
        (fun g =>
          g.video_id == (([orphanSource] : List MessageSource).getD 0 defaultSource).video_id)
      = []) ∧
    (addContextToSources [orphanSource] userW dbW 2).getD 0 defaultSource =
      ([orphanSource] : List MessageSource).getD 0 defaultSource :=
  ⟨by decide, by decide,
    (context_enricher_frame [orphanSource] userW dbW 2).2.2 0 (by decide) (by decide)⟩

end DigdirChat
